import Mathlib

/-!
Verification of the structural-feature and trade-simulation core of the
ai-trader-alchemy repository: the zig-zag pivot detector and Fibonacci /
support-resistance feature engine (fibo-features.py), the take-profit /
stop-loss candidate selection (tp_sl_suggest.py), the barrier-hit trade
simulator (ppo_env.py) and the reward shaping (reward.py).

All numeric values are modelled as rationals; Python float literals such as
1.272 are carried as the exact rationals they denote in the source text.
-/

namespace Alchemy

/-- Pivot type: H is a swing high, L is a swing low (the Python strings
"H" and "L"). -/
inductive PivType where
  | H : PivType
  | L : PivType
deriving DecidableEq, Repr

/-- The state-transition function of the zig-zag detector, a transcription of
the function update-pivot of fibo-features.py (lines 22-45): inputs are the
current direction, the running anchor price (called last-pivot-price in the
source), the close c and the reversal threshold rev; the result is the new
direction, the new anchor price, the optionally emitted pivot type and the
reversal flag. -/
def updatePivot (direction : Int) (lastPivotPrice c rev : ℚ) :
    Int × ℚ × Option PivType × Bool :=
  if direction = 0 then
    (0, c, none, false)
  else if direction ≥ 0 then
    if c > lastPivotPrice then
      (1, c, none, false)
    else if lastPivotPrice - c > rev then
      (-1, c, some PivType.H, true)
    else
      (direction, lastPivotPrice, none, false)
  else
    if c < lastPivotPrice then
      (-1, c, none, false)
    else if c - lastPivotPrice > rev then
      (1, c, some PivType.L, true)
    else
      (direction, lastPivotPrice, none, false)

/-- The pivot-list update of compute-fib-features (fibo-features.py lines
73-79).  The Python code keeps two parallel lists piv-types / piv-prices and
appends at the end; here they are one list of pairs kept most-recent-first,
so "append" is cons and "overwrite the last entry" replaces the head:
if the list is empty or the head has a different type the candidate is
prepended, otherwise it overwrites the head in place. -/
def appendPivot (pivs : List (PivType × ℚ)) (t : PivType) (price : ℚ) :
    List (PivType × ℚ) :=
  match pivs with
  | [] => [(t, price)]
  | p :: rest => if p.1 ≠ t then (t, price) :: p :: rest else (t, price) :: rest

/-- A pivot list built by folding appendPivot over a sequence of emitted
(type, price) events, starting from the empty list, exactly as the loop of
compute-fib-features grows piv-types / piv-prices. -/
def buildPivots (events : List (PivType × ℚ)) : List (PivType × ℚ) :=
  events.foldl (fun acc e => appendPivot acc e.1 e.2) []

/-- No two adjacent pivots share a type (the list is kept most-recent-first,
adjacency is the same in either orientation). -/
def Alternating (pivs : List (PivType × ℚ)) : Prop :=
  List.Chain' (fun x y => x.1 ≠ y.1) pivs

/-- The last-three-pivots view of the function form-abc of fibo-features.py
(lines 47-52): with the list most-recent-first the first three entries are
C, B, A (A is the oldest of the three); fewer than three pivots give none. -/
def formABC (pivs : List (PivType × ℚ)) :
    Option (PivType × ℚ × PivType × ℚ × PivType × ℚ) :=
  match pivs with
  | (tC, pC) :: (tB, pB) :: (tA, pA) :: _ => some (tA, pA, tB, pB, tC, pC)
  | _ => none

/-- safe-div of fibo-features.py (lines 19-20): division guarded against a
zero denominator; the NaN result is modelled as none. -/
def safeDiv (x y : ℚ) : Option ℚ :=
  if y = 0 then none else some (x / y)

/-- The volatility actually used at bar i, a transcription of line 68 of
fibo-features.py: the atr at bar i when positive, otherwise the raw atr of
bar i-1 when i is positive, otherwise the constant 1e-6. -/
def volUsedAt (atrs : List ℚ) (i : Nat) : ℚ :=
  if atrs.getD i 0 > 0 then atrs.getD i 0
  else if 0 < i then atrs.getD (i - 1) 0
  else 1 / 1000000

/-- The last positive value of a list, scanning left to right (none when no
positive value occurs). -/
def lastPos (l : List ℚ) : Option ℚ :=
  l.foldl (fun acc x => if x > 0 then some x else acc) none

/-- Modelled from the spec: the volatility the specification says is used at
bar i ("substituting the last known positive volatility, or a fixed small
epsilon if none exists yet"): the atr at bar i when positive, otherwise the
most recent positive atr at an earlier bar, otherwise the epsilon 1e-6.
Stated for comparison with volUsedAt, which is the code. -/
def specVolUsedAt (atrs : List ℚ) (i : Nat) : ℚ :=
  if atrs.getD i 0 > 0 then atrs.getD i 0
  else
    match lastPos (atrs.take i) with
    | some p => p
    | none => 1 / 1000000

/-- One input bar of compute-fib-features: the columns close and atr the
function reads. -/
structure FibBar where
  close : ℚ
  atr : ℚ
deriving DecidableEq, Repr

/-- The eight Fibonacci feature values written at one bar (fibo-features.py
lines 94-118), in the column order fib-ext-127, fib-ext-161, fib-ext-200,
fib-ret-236, fib-ret-382, fib-ret-500, fib-ret-618, fib-ret-786.  A bar at
which the code writes nothing (fewer than three pivots, a non-alternating
A-B-C triple, or R = 0) keeps NaN in every column, modelled as eight nones. -/
def fibRow (pivs : List (PivType × ℚ)) (c a : ℚ) : List (Option ℚ) :=
  match formABC pivs with
  | none => List.replicate 8 none
  | some (tA, pA, tB, pB, tC, pC) =>
    let R := |pB - pA|
    if R ≤ 0 then List.replicate 8 none
    else if tA = PivType.L ∧ tB = PivType.H ∧ tC = PivType.L then
      [safeDiv (pC + R * (1272 / 1000) - c) a,
       safeDiv (pC + R * (1618 / 1000) - c) a,
       safeDiv (pC + R * 2 - c) a,
       safeDiv (c - (pB - R * (236 / 1000))) a,
       safeDiv (c - (pB - R * (382 / 1000))) a,
       safeDiv (c - (pB - R * (500 / 1000))) a,
       safeDiv (c - (pB - R * (618 / 1000))) a,
       safeDiv (c - (pB - R * (786 / 1000))) a]
    else if tA = PivType.H ∧ tB = PivType.L ∧ tC = PivType.H then
      [safeDiv (pC - R * (1272 / 1000) - c) a,
       safeDiv (pC - R * (1618 / 1000) - c) a,
       safeDiv (pC - R * 2 - c) a,
       safeDiv (c - (pB + R * (236 / 1000))) a,
       safeDiv (c - (pB + R * (382 / 1000))) a,
       safeDiv (c - (pB + R * (500 / 1000))) a,
       safeDiv (c - (pB + R * (618 / 1000))) a,
       safeDiv (c - (pB + R * (786 / 1000))) a]
    else List.replicate 8 none

/-- The four support/resistance feature values written at one bar
(fibo-features.py lines 81-92), in the column order sr-support-1-dist,
sr-support-2-dist, sr-resistance-1-dist, sr-resistance-2-dist: distinct
pivot prices sorted, partitioned below/above the close, sorted by proximity,
and the nearest two on each side reported as volatility-normalized
distances.  When the pivot list is empty nothing is written (four nones). -/
def srRow (pivPrices : List ℚ) (c a : ℚ) : List (Option ℚ) :=
  if pivPrices = [] then List.replicate 4 none
  else
    let lv := List.insertionSort (· ≤ ·) pivPrices.dedup
    let sup := List.insertionSort (fun x y => c - x ≤ c - y) (lv.filter (· < c))
    let res := List.insertionSort (fun x y => x - c ≤ y - c) (lv.filter (· > c))
    [if 1 ≤ sup.length then safeDiv (c - sup.getD 0 0) a else none,
     if 2 ≤ sup.length then safeDiv (c - sup.getD 1 0) a else none,
     if 1 ≤ res.length then safeDiv (res.getD 0 0 - c) a else none,
     if 2 ≤ res.length then safeDiv (res.getD 1 0 - c) a else none]

/-- The mutable loop state of compute-fib-features: the detector direction,
the running anchor price and the pivot list (most-recent-first, see
appendPivot). -/
structure FibState where
  direction : Int
  lastPivotPrice : ℚ
  pivs : List (PivType × ℚ)
deriving DecidableEq, Repr

/-- One iteration of the loop of compute-fib-features (fibo-features.py lines
66-118) at bar index i: update the pivot state, then produce the twelve
feature values of the row (eight Fibonacci then four support/resistance, the
order of all-cols at line 121). -/
def computeStep (atrMult : ℚ) (closes atrs : List ℚ) (st : FibState) (i : Nat) :
    FibState × List (Option ℚ) :=
  let c := closes.getD i 0
  let a := volUsedAt atrs i
  let rev := atrMult * a
  let u := updatePivot st.direction st.lastPivotPrice c rev
  let pivs :=
    match u.2.2.1 with
    | some t => if u.2.2.2 then appendPivot st.pivs t u.2.1 else st.pivs
    | none => st.pivs
  (⟨u.1, u.2.1, pivs⟩, fibRow pivs c a ++ srRow (pivs.map Prod.snd) c a)

/-- The loop of compute-fib-features over a list of bar indices, threading
the state and collecting each row of raw (pre-fill) feature values. -/
def computeRows (atrMult : ℚ) (closes atrs : List ℚ) :
    List Nat → FibState → FibState × List (List (Option ℚ))
  | [], st => (st, [])
  | i :: rest, st =>
    let sr := computeStep atrMult closes atrs st i
    let tail := computeRows atrMult closes atrs rest sr.1
    (tail.1, sr.2 :: tail.2)

/-- The initial loop state of compute-fib-features (lines 62-64): direction
0, anchor price the first close, no pivots. -/
def initState (closes : List ℚ) : FibState :=
  ⟨0, closes.getD 0 0, []⟩

/-- Forward fill down the rows, per column (pandas ffill at line 122),
starting from a previous row of all-missing values. -/
def ffillRows (prev : List (Option ℚ)) : List (List (Option ℚ)) → List (List (Option ℚ))
  | [] => []
  | r :: rs =>
    let r2 := List.zipWith (fun x p => match x with | some v => some v | none => p) r prev
    r2 :: ffillRows r2 rs

/-- np.clip of a scalar: the value forced into the closed range lo..hi. -/
def npClip (x lo hi : ℚ) : ℚ := min hi (max lo x)

/-- The final fill-and-clip of compute-fib-features (line 122): forward fill,
default remaining missing values to 0, clip every value to the range
-50..50. -/
def postProcess (rows : List (List (Option ℚ))) : List (List ℚ) :=
  (ffillRows (List.replicate 12 none) rows).map
    (fun r => r.map (fun x => npClip (x.getD 0) (-50) 50))

/-- The final pivot state after compute-fib-features has processed all bars
(the values of direction, last-pivot-price, piv-types and piv-prices when
the loop of lines 66-118 finishes). -/
def finalState (bars : List FibBar) (atrMult : ℚ) : FibState :=
  (computeRows atrMult (bars.map FibBar.close) (bars.map FibBar.atr)
    (List.range bars.length) (initState (bars.map FibBar.close))).1

/-- compute-fib-features of fibo-features.py (lines 54-123): the twelve
output feature columns, one list of twelve values per input bar, in the
column order of all-cols (eight Fibonacci then four support/resistance). -/
def computeFibFeatures (bars : List FibBar) (atrMult : ℚ := 3) : List (List ℚ) :=
  postProcess
    ((computeRows atrMult (bars.map FibBar.close) (bars.map FibBar.atr)
      (List.range bars.length) (initState (bars.map FibBar.close))).2)

/-- np.sign on rationals. -/
def npSign (x : ℚ) : ℚ :=
  if x > 0 then 1 else if x < 0 then -1 else 0

/-- reward-function of reward.py (lines 3-37): normalize PnL by volatility,
scale losses by 1.5, add the conviction and risk-efficiency terms, apply the
news and sentiment modifiers, and clip the result to -3..3.  The float
literals 1e-9, 1.5, 0.5, 0.2, 0.3, 0.1 are the exact rationals of the
source text. -/
def rewardFunction (pnl atr conf tpDist slDist sent news : ℚ) : ℚ :=
  let pnlR := pnl / (atr + 1 / 1000000000)
  let pnlR := if pnlR < 0 then (3 / 2) * pnlR else pnlR
  let confR := (1 / 2) * (conf * npSign pnl)
  let eff := (1 / 5) * (tpDist / (slDist + 1 / 1000000000)) * (if pnl > 0 then 1 else -1)
  let ddPen : ℚ := 0
  let base := pnlR + confR - (3 / 10) * ddPen + eff
  let out := base * (1 - (1 / 5) * news) + (1 / 10) * sent * npSign pnl
  npClip out (-3) 3

/-- One row of the dataframe PPOTickEnv steps through: the columns its step
method reads. -/
structure Row where
  close : ℚ
  high : ℚ
  low : ℚ
  atr : ℚ
  conf_entry_final : ℚ
  tp_mult_suggested : ℚ
  sl_mult_suggested : ℚ
  sentiment : ℚ
  news_vol : ℚ
deriving DecidableEq, Repr

instance : Inhabited Row := ⟨⟨0, 0, 0, 0, 0, 0, 0, 0, 0⟩⟩

/-- The forward scan of PPOTickEnv.step (ppo_env.py lines 141-166):
given the side, the absolute target and stop levels, the provisional exit
price and the bars still ahead, return (hit-tp, hit-sl, exit-price, k) where
k is the number of bars examined before the scan stopped (k equals the list
length when the series ends with no touch).  Within each bar the long case
checks high at-or-above target before low at-or-below stop, and the short
case checks low at-or-below target before high at-or-above stop; a touch
fixes the exit price to the touched level, otherwise the provisional exit
becomes the bar close and the scan continues. -/
def scanExit (side : Int) (tpPrice slPrice : ℚ) : ℚ → List Row → Bool × Bool × ℚ × Nat
  | exitPrice, [] => (false, false, exitPrice, 0)
  | _, b :: rest =>
    if side = 1 then
      if b.high ≥ tpPrice then (true, false, tpPrice, 0)
      else if b.low ≤ slPrice then (false, true, slPrice, 0)
      else
        let t := scanExit side tpPrice slPrice b.close rest
        (t.1, t.2.1, t.2.2.1, t.2.2.2 + 1)
    else
      if b.low ≤ tpPrice then (true, false, tpPrice, 0)
      else if b.high ≥ slPrice then (false, true, slPrice, 0)
      else
        let t := scanExit side tpPrice slPrice b.close rest
        (t.1, t.2.1, t.2.2.1, t.2.2.2 + 1)

/-- The simulation started by PPOTickEnv.step at decision index i
(ppo_env.py lines 137-166): the scan runs over the bars strictly after the
entry bar, with the provisional exit price initialized to the close of the
first scanned bar (line 140). -/
def simulateFrom (rows : List Row) (i : Nat) (side : Int) (tpPrice slPrice : ℚ) :
    Bool × Bool × ℚ × Nat :=
  let scanBars := rows.drop (i + 1)
  scanExit side tpPrice slPrice ((scanBars.headD default).close) scanBars

/-- The constructor parameters of PPOTickEnv that step reads. -/
structure EnvCfg where
  tpLo : ℚ := 8 / 10
  tpHi : ℚ := 3
  slLo : ℚ := 5 / 10
  slHi : ℚ := 16 / 10
  confThreshold : ℚ := 3 / 10
  maxDeltaTp : ℚ := 5 / 10
  maxDeltaSl : ℚ := 3 / 10
  useSuggestions : Bool := true
deriving Repr

/-- The trade information PPOTickEnv.step returns in its info dictionary
when a trade was simulated (ppo_env.py lines 185-191). -/
structure TradeInfo where
  hitTp : Bool
  hitSl : Bool
  tpPrice : ℚ
  slPrice : ℚ
  entryPrice : ℚ
  exitPrice : ℚ
  fTP : ℚ
  fSL : ℚ
  conf : ℚ
deriving DecidableEq, Repr

/-- The observable result of PPOTickEnv.step: the new decision index, the
reward, the terminated flag, and the trade info (none on the terminal and
no-trade branches, where the info dictionary is empty). -/
structure StepOut where
  i : Nat
  reward : ℚ
  terminated : Bool
  info : Option TradeInfo
deriving DecidableEq, Repr

/-- PPOTickEnv.step of ppo_env.py (lines 75-191), with the action already
parsed into the discrete head disc and the continuous head (cont0, cont1):
the terminal guard, the continuous-delta clamps, the low-confidence gate
that forces disc to 0, the no-trade branch, and the entry branch computing
target and stop levels, scanning forward, calling reward-function and
jumping to the bar after the exit. -/
def step (cfg : EnvCfg) (rows : List Row) (i : Nat) (disc : Nat) (cont0 cont1 : ℚ) :
    StepOut :=
  let n := rows.length
  if n ≤ i + 2 then ⟨i, 0, true, none⟩
  else
    let deltaTp := npClip cont0 (-cfg.maxDeltaTp) cfg.maxDeltaTp
    let deltaSl := npClip cont1 (-cfg.maxDeltaSl) cfg.maxDeltaSl
    let row := rows.getD i default
    let conf := row.conf_entry_final
    let disc := if |conf| < cfg.confThreshold then 0 else disc
    if disc = 0 then ⟨i + 1, 0, false, none⟩
    else
      let side : Int := if disc = 1 then 1 else -1
      let close := row.close
      let atr := row.atr
      let fTPbase := if cfg.useSuggestions then row.tp_mult_suggested else 12 / 10
      let fSLbase := if cfg.useSuggestions then row.sl_mult_suggested else 1
      let fTP := npClip (fTPbase * (1 + deltaTp)) cfg.tpLo cfg.tpHi
      let fSL := npClip (fSLbase * (1 + deltaSl)) cfg.slLo cfg.slHi
      let tpDist := atr * fTP
      let slDist := atr * fSL
      let tpPrice := if side = 1 then close + tpDist else close - tpDist
      let slPrice := if side = 1 then close - slDist else close + slDist
      let s := simulateFrom rows i side tpPrice slPrice
      let exitPrice := s.2.2.1
      let j := i + 1 + s.2.2.2
      let pnl := (exitPrice - close) * (side : ℚ)
      let reward := rewardFunction pnl atr conf tpDist slDist row.sentiment row.news_vol
      ⟨min (j + 1) (n - 1), reward, false,
        some ⟨s.1, s.2.1, tpPrice, slPrice, close, exitPrice, fTP, fSL, conf⟩⟩

/-- np.argmax on a list of scores: the index of the first occurrence of the
maximum (the semantics used at lines 185 and 193 of tp_sl_suggest.py, where
ties go to the candidate stacked first). -/
def argmaxFirst : List ℚ → Nat
  | [] => 0
  | [_] => 0
  | x :: y :: rest =>
    let j := argmaxFirst (y :: rest)
    if x < (y :: rest).getD j 0 then j + 1 else 0

/-- The canonical long-side take-profit candidate order of
build-tp-sl-suggestions (tp_sl_suggest.py line 181). -/
def tpCandsLong : List String := ["F127", "F161", "F200", "R1", "R2"]

/-- The canonical long-side stop-loss candidate order (line 182). -/
def slCandsLong : List String := ["S1", "S2", "RET236", "RET382", "RET500", "RET618", "RET786"]

/-- The canonical short-side take-profit candidate order (line 203). -/
def tpCandsShort : List String := ["F127", "F161", "F200", "S1", "S2"]

/-- The canonical short-side stop-loss candidate order (line 204). -/
def slCandsShort : List String := ["R1", "R2", "RET236", "RET382", "RET500", "RET618", "RET786"]

/-- The per-row winner selection of build-tp-sl-suggestions (lines 184-187,
192-195, 206-209, 214-217): the scores of the candidates are stacked in the
canonical order and np.argmax picks the winning index. -/
def pickIdx (cands : List String) (scores : String → ℚ) : Nat :=
  argmaxFirst (cands.map scores)

/-- The winning candidate label of a selection (the source label written to
tp-source / sl-source). -/
def pickLabel (cands : List String) (scores : String → ℚ) : String :=
  cands.getD (pickIdx cands scores) "NA"

/-- The selection of one leg on one side behaves as an argmax with ties
broken by the earliest-listed candidate: for every assignment of scores the
picked index is in range, no candidate scores strictly higher than the
winner, and every candidate listed before the winner scores strictly
lower. -/
def SelectsArgmaxFirst (cands : List String) : Prop :=
  ∀ scores : String → ℚ,
    pickIdx cands scores < cands.length ∧
    (∀ k, k < cands.length →
      scores (cands.getD k "") ≤ scores (cands.getD (pickIdx cands scores) "")) ∧
    (∀ k, k < pickIdx cands scores →
      scores (cands.getD k "") < scores (cands.getD (pickIdx cands scores) ""))

/-- The target-touch condition the scan checks first within a bar: high
at-or-above target for a long, low at-or-below target for a short
(ppo_env.py lines 147 and 156). -/
def tpTouch (side : Int) (tpPrice : ℚ) (b : Row) : Prop :=
  if side = 1 then b.high ≥ tpPrice else b.low ≤ tpPrice

/-- The stop-touch condition the scan checks second within a bar: low
at-or-below stop for a long, high at-or-above stop for a short (ppo_env.py
lines 151 and 160). -/
def slTouch (side : Int) (slPrice : ℚ) (b : Row) : Prop :=
  if side = 1 then b.low ≤ slPrice else b.high ≥ slPrice

/-- A score assignment with an exact tie between the first two long
take-profit candidates. -/
def tieScores : String → ℚ :=
  fun l => if l = "F127" ∨ l = "F161" then 1 else 0

/-! ## Theorems -/

/-- C1.  The spec says the first bar takes the detector from UNSET to UP
(direction 1) with the anchor set to the close; the code instead returns
direction 0 unchanged for every close and threshold, so the detector never
leaves UNSET and the extend/reverse transitions never become reachable. -/
theorem updatePivot_unset_returns_unset (lastPivotPrice c rev : ℚ) :
    updatePivot 0 lastPivotPrice c rev = (0, c, none, false) := by
  simp [updatePivot]

/-- C3.  At a concrete reversal the emitted pivot price is the reversal
close, not the anchor: with direction UP, anchor 110, close 100 and
threshold 5 the update reverses and hands back price 100 (the close), not
110 (the anchor); symmetrically for a DOWN reversal with anchor 100 and
close 110 the emitted LOW price is 110.  The anchor is overwritten with the
close before the pivot price is taken. -/
theorem updatePivot_reversal_price_is_close :
    updatePivot 1 110 100 5 = (-1, 100, some PivType.H, true) ∧
    updatePivot (-1) 100 110 5 = (1, 110, some PivType.L, true) := by
  constructor <;> norm_num [updatePivot]

/-- C6.  For every combination of PnL, volatility, confidence, target and
stop distances, sentiment and news inputs, reward-function returns a value
inside the clip range -3..3. -/
theorem reward_function_bounded (pnl atr conf tpDist slDist sent news : ℚ) :
    -3 ≤ rewardFunction pnl atr conf tpDist slDist sent news ∧
    rewardFunction pnl atr conf tpDist slDist sent news ≤ 3 := by
  unfold rewardFunction npClip
  constructor
  · exact le_min (by norm_num) (le_max_left _ _)
  · exact min_le_left _ _

/-- A single pivot-list update preserves alternation: a same-typed candidate
overwrites the head in place, a differently-typed one is prepended. -/
lemma appendPivot_alternating (pivs : List (PivType × ℚ)) (t : PivType) (p : ℚ)
    (h : Alternating pivs) : Alternating (appendPivot pivs t p) := by
  unfold Alternating at *
  match pivs, h with
  | [], _ => simp [appendPivot]
  | q :: rest, h =>
    by_cases hq : q.1 = t
    · have he : appendPivot (q :: rest) t p = (t, p) :: rest := by
        simp [appendPivot, hq]
      rw [he]
      match rest, h with
      | [], _ => simp
      | r :: rest2, h =>
        rcases List.chain'_cons.mp h with ⟨hqr, hrest⟩
        exact List.chain'_cons.mpr ⟨hq ▸ hqr, hrest⟩
    · have he : appendPivot (q :: rest) t p = (t, p) :: q :: rest := by
        simp [appendPivot, hq]
      rw [he]
      exact List.chain'_cons.mpr ⟨fun e => hq e.symm, h⟩

/-- Folding the pivot-list update preserves alternation from any alternating
start. -/
lemma foldl_appendPivot_alternating :
    ∀ (events : List (PivType × ℚ)) (acc : List (PivType × ℚ)),
      Alternating acc →
      Alternating (events.foldl (fun a e => appendPivot a e.1 e.2) acc) := by
  intro events
  induction events with
  | nil => intro acc h; exact h
  | cons e es ih =>
    intro acc h
    exact ih _ (appendPivot_alternating _ _ _ h)

/-- C9.  Every pivot list generated by the update rule of
compute-fib-features strictly alternates in type: no two adjacent entries
share the same type, because a same-typed candidate overwrites the price of
the most recent pivot in place instead of being appended. -/
theorem pivot_list_alternates (events : List (PivType × ℚ)) :
    Alternating (buildPivots events) :=
  foldl_appendPivot_alternating events [] List.chain'_nil

/-- With direction 0 and no pivots, one loop iteration keeps direction 0,
resets the anchor to the current close, keeps the pivot list empty and
writes nothing into the row. -/
lemma computeStep_dead (atrMult : ℚ) (closes atrs : List ℚ) (st : FibState) (i : Nat)
    (hd : st.direction = 0) (hp : st.pivs = []) :
    computeStep atrMult closes atrs st i =
      (⟨0, closes.getD i 0, []⟩, List.replicate 12 none) := by
  obtain ⟨d, lpp, pivs⟩ := st
  simp only at hd hp
  subst hd hp
  simp [computeStep, updatePivot, fibRow, formABC, srRow]

/-- The whole loop preserves the dead state and produces only all-missing
rows. -/
lemma computeRows_dead (atrMult : ℚ) (closes atrs : List ℚ) :
    ∀ (idxs : List Nat) (st : FibState), st.direction = 0 → st.pivs = [] →
      (computeRows atrMult closes atrs idxs st).1.direction = 0 ∧
      (computeRows atrMult closes atrs idxs st).1.pivs = [] ∧
      ∀ r ∈ (computeRows atrMult closes atrs idxs st).2, r = List.replicate 12 none := by
  intro idxs
  induction idxs with
  | nil =>
    intro st hd hp
    exact ⟨hd, hp, by simp [computeRows]⟩
  | cons i rest ih =>
    intro st hd hp
    have hstep := computeStep_dead atrMult closes atrs st i hd hp
    have ihr := ih ⟨0, closes.getD i 0, []⟩ rfl rfl
    simp only [computeRows, hstep]
    refine ⟨ihr.1, ihr.2.1, ?_⟩
    intro r hr
    rcases List.mem_cons.mp hr with h | h
    · exact h
    · exact ihr.2.2 r h

/-- Zipping two all-missing rows keeps an all-missing row. -/
lemma zipWith_replicate_none (n : Nat) :
    List.zipWith (fun (x p : Option ℚ) => match x with | some v => some v | none => p)
      (List.replicate n none) (List.replicate n none) = List.replicate n none := by
  induction n with
  | zero => rfl
  | succ m ih => simp [List.replicate_succ, ih]

/-- Forward filling rows that are all missing changes nothing. -/
lemma ffillRows_all_none :
    ∀ rows : List (List (Option ℚ)),
      (∀ r ∈ rows, r = List.replicate 12 none) →
      ffillRows (List.replicate 12 none) rows = rows := by
  intro rows
  induction rows with
  | nil => intro _; rfl
  | cons r rs ih =>
    intro h
    have hr : r = List.replicate 12 none := h r (List.mem_cons_self r rs)
    subst hr
    simp only [ffillRows, zipWith_replicate_none]
    rw [ih fun x hx => h x (List.mem_cons_of_mem _ hx)]

/-- C2.  For every input bar series and every atr multiplier,
compute-fib-features never records a pivot: the final pivot list is empty
and the direction state is still 0, so after forward fill, zero fill and
clipping every one of the twelve output feature columns is exactly 0 at
every row. -/
theorem compute_fib_features_no_pivots_all_zero (bars : List FibBar) (atrMult : ℚ) :
    (finalState bars atrMult).direction = 0 ∧
    (finalState bars atrMult).pivs = [] ∧
    ∀ r ∈ computeFibFeatures bars atrMult, r = List.replicate 12 (0 : ℚ) := by
  have h := computeRows_dead atrMult (bars.map FibBar.close) (bars.map FibBar.atr)
    (List.range bars.length) (initState (bars.map FibBar.close)) rfl rfl
  refine ⟨h.1, h.2.1, ?_⟩
  intro r hr
  unfold computeFibFeatures postProcess at hr
  rw [ffillRows_all_none _ h.2.2] at hr
  rcases List.mem_map.mp hr with ⟨r0, hr0, hmap⟩
  have : r0 = List.replicate 12 none := h.2.2 r0 hr0
  subst this
  rw [← hmap]
  simp [List.map_replicate, npClip]

/-- C4.  At any bar whose last three pivots are a LOW-HIGH-LOW triple
(A, B, C) with range R = |B - A| greater than 0 and nonzero volatility, the
eight Fibonacci outputs are exactly the extension levels C + R x 1.272,
C + R x 1.618, C + R x 2 reported as (level - close) / volatility and the
retracement levels B - R x f for f in 0.236, 0.382, 0.5, 0.618, 0.786
reported as (close - level) / volatility; any non-alternating triple, and
any triple with R = 0, yields no Fibonacci output at that bar. -/
theorem fib_levels_formulas (pA pB pC c a : ℚ) (rest : List (PivType × ℚ)) (ha : a ≠ 0) :
    (0 < |pB - pA| →
      fibRow ((PivType.L, pC) :: (PivType.H, pB) :: (PivType.L, pA) :: rest) c a =
        [some ((pC + |pB - pA| * (1272 / 1000) - c) / a),
         some ((pC + |pB - pA| * (1618 / 1000) - c) / a),
         some ((pC + |pB - pA| * 2 - c) / a),
         some ((c - (pB - |pB - pA| * (236 / 1000))) / a),
         some ((c - (pB - |pB - pA| * (382 / 1000))) / a),
         some ((c - (pB - |pB - pA| * (500 / 1000))) / a),
         some ((c - (pB - |pB - pA| * (618 / 1000))) / a),
         some ((c - (pB - |pB - pA| * (786 / 1000))) / a)]) ∧
    (∀ tA tB tC : PivType,
      ¬((tA = PivType.L ∧ tB = PivType.H ∧ tC = PivType.L) ∨
        (tA = PivType.H ∧ tB = PivType.L ∧ tC = PivType.H)) →
      fibRow ((tC, pC) :: (tB, pB) :: (tA, pA) :: rest) c a = List.replicate 8 none) ∧
    (pB = pA → ∀ tA tB tC : PivType,
      fibRow ((tC, pC) :: (tB, pB) :: (tA, pA) :: rest) c a = List.replicate 8 none) := by
  refine ⟨?_, ?_, ?_⟩
  · intro hR
    simp [fibRow, formABC, safeDiv, ha, not_le.mpr hR]
  · intro tA tB tC hpat
    cases tA <;> cases tB <;> cases tC <;> simp_all [fibRow, formABC]
  · intro he tA tB tC
    subst he
    cases tA <;> cases tB <;> cases tC <;> simp [fibRow, formABC, sub_self, abs_zero]

/-- Witness for C4: the A = 100, B = 120, C = 110 example of the spec with
close 112 and volatility 2; fib-ext-127 is the level 135.44 reported as
(135.44 - 112) / 2. -/
theorem fib_levels_formulas_witness :
    (2 : ℚ) ≠ 0 ∧ (0 : ℚ) < |(120 : ℚ) - 100| ∧
    fibRow [(PivType.L, 110), (PivType.H, 120), (PivType.L, 100)] 112 2 =
      [some ((110 + |(120 : ℚ) - 100| * (1272 / 1000) - 112) / 2),
       some ((110 + |(120 : ℚ) - 100| * (1618 / 1000) - 112) / 2),
       some ((110 + |(120 : ℚ) - 100| * 2 - 112) / 2),
       some ((112 - (120 - |(120 : ℚ) - 100| * (236 / 1000))) / 2),
       some ((112 - (120 - |(120 : ℚ) - 100| * (382 / 1000))) / 2),
       some ((112 - (120 - |(120 : ℚ) - 100| * (500 / 1000))) / 2),
       some ((112 - (120 - |(120 : ℚ) - 100| * (618 / 1000))) / 2),
       some ((112 - (120 - |(120 : ℚ) - 100| * (786 / 1000))) / 2)] :=
  ⟨by norm_num, by norm_num,
    (fib_levels_formulas 100 120 110 112 2 [] (by norm_num)).1 (by norm_num)⟩

/-- The scan stops at the first bar touching the target, with the exit price
the target level exactly, no matter what the stop condition does on that
bar. -/
lemma scanExit_target_first (side : Int) (tpPrice slPrice : ℚ)
    (hside : side = 1 ∨ side = -1) (b : Row) (rest : List Row)
    (hb : tpTouch side tpPrice b) :
    ∀ (pre : List Row) (d : ℚ),
      (∀ x ∈ pre, ¬tpTouch side tpPrice x ∧ ¬slTouch side slPrice x) →
      scanExit side tpPrice slPrice d (pre ++ b :: rest) =
        (true, false, tpPrice, pre.length) := by
  intro pre
  induction pre with
  | nil =>
    intro d _
    rcases hside with h1 | h2
    · subst h1
      have hb1 : tpPrice ≤ b.high := by simpa [tpTouch] using hb
      simp [scanExit, hb1]
    · subst h2
      have hb1 : b.low ≤ tpPrice := by simpa [tpTouch] using hb
      simp [scanExit, hb1]
  | cons x pre2 ih =>
    intro d hpre
    have hx := hpre x (List.mem_cons_self x pre2)
    have hrest : ∀ y ∈ pre2, ¬tpTouch side tpPrice y ∧ ¬slTouch side slPrice y :=
      fun y hy => hpre y (List.mem_cons_of_mem _ hy)
    rcases hside with h1 | h2
    · subst h1
      have hx1 : x.high < tpPrice := by simpa [tpTouch] using hx.1
      have hx2 : slPrice < x.low := by simpa [slTouch] using hx.2
      simp [scanExit, not_le.mpr hx1, not_le.mpr hx2, ih x.close hrest]
    · subst h2
      have hx1 : tpPrice < x.low := by simpa [tpTouch] using hx.1
      have hx2 : x.high < slPrice := by simpa [slTouch] using hx.2
      simp [scanExit, not_le.mpr hx1, not_le.mpr hx2, ih x.close hrest]

/-- C5.  The simulation of PPOTickEnv.step scans the bars strictly after the
entry bar; on the first bar where the target condition holds the scan ends
with hit-tp, the exit price fixed to the target level exactly, after
examining exactly the bars before it, regardless of whether the stop level
is also inside that bar's range (the target condition is checked first), for
both the long and the short side. -/
theorem simulate_target_checked_before_stop (rows : List Row) (i : Nat) (side : Int)
    (tpPrice slPrice : ℚ) (pre : List Row) (b : Row) (rest : List Row)
    (hside : side = 1 ∨ side = -1)
    (hdrop : rows.drop (i + 1) = pre ++ b :: rest)
    (hpre : ∀ x ∈ pre, ¬tpTouch side tpPrice x ∧ ¬slTouch side slPrice x)
    (hb : tpTouch side tpPrice b) :
    simulateFrom rows i side tpPrice slPrice = (true, false, tpPrice, pre.length) := by
  unfold simulateFrom
  rw [hdrop]
  exact scanExit_target_first side tpPrice slPrice hside b rest hb pre _ hpre

/-- Witness for C5: a long trade and a short trade entered at bar 0, where
the single scanned bar crosses both the target and the stop; the target
wins on both sides. -/
theorem simulate_target_checked_before_stop_witness :
    simulateFrom [⟨100, 0, 0, 1, 0, 0, 0, 0, 0⟩, ⟨100, 12, 4, 1, 0, 0, 0, 0, 0⟩]
      0 1 10 5 = (true, false, 10, 0) ∧
    simulateFrom [⟨100, 0, 0, 1, 0, 0, 0, 0, 0⟩, ⟨100, 12, 4, 1, 0, 0, 0, 0, 0⟩]
      0 (-1) 5 10 = (true, false, 5, 0) :=
  ⟨simulate_target_checked_before_stop _ 0 1 10 5 [] _ [] (Or.inl rfl) rfl
      (by simp) (by norm_num [tpTouch]),
   simulate_target_checked_before_stop _ 0 (-1) 5 10 [] _ [] (Or.inr rfl) rfl
      (by simp) (by norm_num [tpTouch])⟩

/-- Appending one value to the scanned prefix updates the last positive
value in the obvious way. -/
lemma lastPos_append (l : List ℚ) (x : ℚ) :
    lastPos (l ++ [x]) = if 0 < x then some x else lastPos l := by
  unfold lastPos
  rw [List.foldl_append]
  rfl

/-- C7 counterexample.  On the atr series [1, 0, 0] the volatility used at
bar 2 is 0 (the raw value of bar 1), while the most recent positive
volatility at an earlier bar is 1: the code does not substitute the last
known positive volatility. -/
theorem volUsed_fallback_counterexample :
    volUsedAt [1, 0, 0] 2 = 0 ∧ specVolUsedAt [1, 0, 0] 2 = 1 ∧
    volUsedAt [1, 0, 0] 2 ≠ specVolUsedAt [1, 0, 0] 2 := by
  refine ⟨by norm_num [volUsedAt], ?_, ?_⟩ <;>
    norm_num [volUsedAt, specVolUsedAt, lastPos, List.take, List.foldl]

/-- C7 amended.  The volatility used at bar i is atr i when it is positive;
otherwise it is the raw atr of the immediately preceding bar (whether or not
that value is positive) when i is positive, and the fixed epsilon 1e-6 at
bar 0.  When the preceding bar's atr is positive this agrees with the
specified "most recent positive volatility". -/
theorem volUsed_fallback_amended (atrs : List ℚ) (i : Nat) :
    (0 < atrs.getD i 0 → volUsedAt atrs i = atrs.getD i 0) ∧
    (¬0 < atrs.getD i 0 → 0 < i → volUsedAt atrs i = atrs.getD (i - 1) 0) ∧
    (¬0 < atrs.getD i 0 → i = 0 → volUsedAt atrs i = 1 / 1000000) ∧
    (¬0 < atrs.getD i 0 → 0 < i → 0 < atrs.getD (i - 1) 0 →
      volUsedAt atrs i = specVolUsedAt atrs i) := by
  refine ⟨?_, ?_, ?_, ?_⟩
  · intro h
    unfold volUsedAt
    rw [if_pos h]
  · intro h hi
    unfold volUsedAt
    rw [if_neg h, if_pos hi]
  · intro h hi
    subst hi
    unfold volUsedAt
    rw [if_neg h, if_neg (lt_irrefl 0)]
  · intro h hi hp
    have hlen : i - 1 < atrs.length := by
      by_contra hc
      push_neg at hc
      rw [List.getD_eq_default _ _ hc] at hp
      exact lt_irrefl 0 hp
    have htake : atrs.take i = atrs.take (i - 1) ++ [atrs.getD (i - 1) 0] := by
      have h1 : i = (i - 1) + 1 := by omega
      conv_lhs => rw [h1]
      rw [List.take_succ, List.getElem?_eq_getElem hlen]
      rw [List.getD_eq_getElem _ _ hlen]
      rfl
    unfold volUsedAt specVolUsedAt
    rw [if_neg h, if_pos hi, if_neg h, htake, lastPos_append, if_pos hp]

/-- Witness for C7 amended: each branch at a concrete input, and agreement
with the spec model when the preceding atr is positive. -/
theorem volUsed_fallback_amended_witness :
    volUsedAt [5] 0 = 5 ∧ volUsedAt [0, 0] 1 = 0 ∧
    volUsedAt [0] 0 = 1 / 1000000 ∧
    volUsedAt [1, 1, 0] 2 = specVolUsedAt [1, 1, 0] 2 :=
  ⟨(volUsed_fallback_amended [5] 0).1 (by norm_num),
   (volUsed_fallback_amended [0, 0] 1).2.1 (by norm_num) (by norm_num),
   (volUsed_fallback_amended [0] 0).2.2.1 (by norm_num) rfl,
   (volUsed_fallback_amended [1, 1, 0] 2).2.2.2 (by norm_num) (by norm_num) (by norm_num)⟩

/-- np.argmax over a nonempty list: the returned index is in range, carries
a maximal value, and every earlier index carries a strictly smaller value
(so equal maximal scores resolve to the first occurrence). -/
lemma argmaxFirst_spec :
    ∀ xs : List ℚ, xs ≠ [] →
      argmaxFirst xs < xs.length ∧
      (∀ k, k < xs.length → xs.getD k 0 ≤ xs.getD (argmaxFirst xs) 0) ∧
      (∀ k, k < argmaxFirst xs → xs.getD k 0 < xs.getD (argmaxFirst xs) 0) := by
  intro xs
  induction xs with
  | nil => intro h; exact absurd rfl h
  | cons x t ih =>
    intro _
    cases t with
    | nil =>
      refine ⟨by simp [argmaxFirst], ?_, ?_⟩
      · intro k hk
        have hk0 : k = 0 := by simpa using Nat.lt_one_iff.mp (by simpa using hk)
        subst hk0
        simp [argmaxFirst]
      · intro k hk
        simp [argmaxFirst] at hk
    | cons y r =>
      obtain ⟨ihl, ihmax, ihfirst⟩ := ih (List.cons_ne_nil y r)
      by_cases hx : x < (y :: r).getD (argmaxFirst (y :: r)) 0
      · have hru : argmaxFirst (x :: y :: r) = argmaxFirst (y :: r) + 1 := by
          simp only [argmaxFirst]
          rw [if_pos hx]
        rw [hru]
        refine ⟨?_, ?_, ?_⟩
        · simpa [Nat.succ_lt_succ_iff] using ihl
        · intro k hk
          cases k with
          | zero =>
            rw [List.getD_cons_zero, List.getD_cons_succ]
            exact le_of_lt hx
          | succ m =>
            rw [List.getD_cons_succ, List.getD_cons_succ]
            exact ihmax m (by simpa [Nat.succ_lt_succ_iff] using hk)
        · intro k hk
          cases k with
          | zero =>
            rw [List.getD_cons_zero, List.getD_cons_succ]
            exact hx
          | succ m =>
            rw [List.getD_cons_succ, List.getD_cons_succ]
            exact ihfirst m (Nat.lt_of_succ_lt_succ hk)
      · have hru : argmaxFirst (x :: y :: r) = 0 := by
          simp only [argmaxFirst]
          rw [if_neg hx]
        rw [hru]
        refine ⟨by simp, ?_, ?_⟩
        · intro k hk
          cases k with
          | zero => exact le_refl _
          | succ m =>
            rw [List.getD_cons_succ, List.getD_cons_zero]
            exact le_trans (ihmax m (by simpa [Nat.succ_lt_succ_iff] using hk)) (not_lt.mp hx)
        · intro k hk
          exact absurd hk (Nat.not_lt_zero k)

/-- Any nonempty canonical candidate order selects by first-occurrence
argmax over the scores. -/
lemma selectsArgmaxFirst_of_ne_nil (cands : List String) (h : cands ≠ []) :
    SelectsArgmaxFirst cands := by
  intro scores
  simp only [pickIdx]
  have hmap : cands.map scores ≠ [] := by simpa using h
  obtain ⟨hl, hmax, hfirst⟩ := argmaxFirst_spec (cands.map scores) hmap
  have hlen : (cands.map scores).length = cands.length := List.length_map _ _
  have hw : argmaxFirst (cands.map scores) < cands.length := by
    rw [← hlen]
    exact hl
  have hwm : argmaxFirst (cands.map scores) < (cands.map scores).length := by
    rw [hlen]
    exact hw
  have hgw : (cands.map scores).getD (argmaxFirst (cands.map scores)) 0 =
      scores (cands.getD (argmaxFirst (cands.map scores)) "") := by
    rw [List.getD_eq_getElem _ _ hwm, List.getD_eq_getElem _ _ hw]
    simp
  refine ⟨hw, ?_, ?_⟩
  · intro k hk
    have hkm : k < (cands.map scores).length := by rw [hlen]; exact hk
    have hgk : (cands.map scores).getD k 0 = scores (cands.getD k "") := by
      rw [List.getD_eq_getElem _ _ hkm, List.getD_eq_getElem _ _ hk]
      simp
    have := hmax k hkm
    rwa [hgk, hgw] at this
  · intro k hk
    have hkc : k < cands.length := lt_trans hk hw
    have hkm : k < (cands.map scores).length := by rw [hlen]; exact hkc
    have hgk : (cands.map scores).getD k 0 = scores (cands.getD k "") := by
      rw [List.getD_eq_getElem _ _ hkm, List.getD_eq_getElem _ _ hkc]
      simp
    have := hfirst k hk
    rwa [hgk, hgw] at this

/-- C8.  For each side and each leg, build-tp-sl-suggestions picks the
candidate with the maximum score, and exactly equal maximal scores resolve
deterministically to the candidate listed earliest in the fixed canonical
order (F127, F161, F200, R1, R2 for the long take-profit leg, and the
corresponding orders for the other three legs). -/
theorem tp_sl_selection_argmax_ties_earliest :
    SelectsArgmaxFirst tpCandsLong ∧ SelectsArgmaxFirst slCandsLong ∧
    SelectsArgmaxFirst tpCandsShort ∧ SelectsArgmaxFirst slCandsShort :=
  ⟨selectsArgmaxFirst_of_ne_nil _ (by simp [tpCandsLong]),
   selectsArgmaxFirst_of_ne_nil _ (by simp [slCandsLong]),
   selectsArgmaxFirst_of_ne_nil _ (by simp [tpCandsShort]),
   selectsArgmaxFirst_of_ne_nil _ (by simp [slCandsShort])⟩

/-- Witness for C8: with F127 and F161 tied at the maximal score, the
selection returns index 0, label F127 (the earlier-listed candidate), and
the tied later candidate does not beat it. -/
theorem tp_sl_selection_argmax_ties_earliest_witness :
    pickIdx tpCandsLong tieScores = 0 ∧ pickLabel tpCandsLong tieScores = "F127" ∧
    tieScores (tpCandsLong.getD 1 "") ≤
      tieScores (tpCandsLong.getD (pickIdx tpCandsLong tieScores) "") :=
  ⟨by decide, by decide,
   (tp_sl_selection_argmax_ties_earliest.1 tieScores).2.1 1 (by simp [tpCandsLong])⟩

/-- C10.  On a non-terminal step, whenever the current row's
conf-entry-final has absolute value below the configured confidence
threshold, step behaves as NO-TRADE for every requested discrete action and
continuous adjustment: no simulation runs (the info is empty), the reward
is exactly 0, the episode does not terminate, and the decision index
advances by exactly one bar. -/
theorem step_low_conf_forces_no_trade (cfg : EnvCfg) (rows : List Row) (i : Nat)
    (disc : Nat) (cont0 cont1 : ℚ)
    (h1 : i + 2 < rows.length)
    (h2 : |(rows.getD i default).conf_entry_final| < cfg.confThreshold) :
    step cfg rows i disc cont0 cont1 = ⟨i + 1, 0, false, none⟩ := by
  unfold step
  rw [if_neg (not_le.mpr h1)]
  simp [h2]
  intro hc
  rw [List.getD_eq_getElem?_getD] at h2
  exact absurd hc (not_le.mpr h2)

/-- Witness for C10: four all-zero rows at index 0 with the default
configuration and a requested short entry; confidence 0 is below the 0.3
threshold and the step returns index 1, reward 0, not terminated, no trade
info. -/
theorem step_low_conf_forces_no_trade_witness :
    (0 : Nat) + 2 <
      ([⟨0, 0, 0, 0, 0, 0, 0, 0, 0⟩, ⟨0, 0, 0, 0, 0, 0, 0, 0, 0⟩,
        ⟨0, 0, 0, 0, 0, 0, 0, 0, 0⟩, ⟨0, 0, 0, 0, 0, 0, 0, 0, 0⟩] : List Row).length ∧
    |(([⟨0, 0, 0, 0, 0, 0, 0, 0, 0⟩, ⟨0, 0, 0, 0, 0, 0, 0, 0, 0⟩,
        ⟨0, 0, 0, 0, 0, 0, 0, 0, 0⟩, ⟨0, 0, 0, 0, 0, 0, 0, 0, 0⟩] : List Row).getD 0
        default).conf_entry_final| < ({} : EnvCfg).confThreshold ∧
    step {} [⟨0, 0, 0, 0, 0, 0, 0, 0, 0⟩, ⟨0, 0, 0, 0, 0, 0, 0, 0, 0⟩,
        ⟨0, 0, 0, 0, 0, 0, 0, 0, 0⟩, ⟨0, 0, 0, 0, 0, 0, 0, 0, 0⟩] 0 2 0 0 =
      ⟨0 + 1, 0, false, none⟩ :=
  ⟨by norm_num,
   by norm_num [List.getD, EnvCfg.confThreshold],
   step_low_conf_forces_no_trade {} _ 0 2 0 0 (by norm_num)
     (by norm_num [List.getD, EnvCfg.confThreshold])⟩

end Alchemy
